import Mathlib

/-!
# Verification of the LEDKontroller Arduino sketch

Shallow embedding of `src/LEDKontroller/LEDKontroller.ino`.

Modelling conventions, chosen to mirror the source faithfully:

* Time (the value of `millis()`) is a `Nat`.  AVR `unsigned long` is 32 bits,
  so every `unsigned long` subtraction `a - b` performed by the source is
  modelled as `(a - b) % 4294967296` (`4294967296 = 2 ^ 32`); the truncated
  `Nat` subtraction agrees with the C computation whenever `b ≤ a`, which the
  theorems assume explicitly where it matters.
* `analogWrite` (via `setLed`) is modelled as emitting a `Write` record
  (pin, value) into an output list; the effect routines are functions from
  their parameters and an input trace to the list of writes they perform.
* `remoteState` is a `volatile` flag rewritten asynchronously by the
  interrupt handler `updateState`, so consecutive reads of it (and
  consecutive `switchOn()` calls) may observe any sequence of booleans.
  Each effect routine therefore takes a `polls : List Bool` trace: one
  element per read of `remoteState` / per call of `switchOn()` performed by
  a loop condition of that routine.  An exhausted trace reads as "off".
* `belay` only reads `remoteState` and `millis()` and writes nothing, and its
  return value is unused, so inside the effect routines it is output-neutral
  and is dropped from their write models; `belay` itself is modelled
  separately (over its own poll trace of `(remoteState, millis)` pairs) for
  the claims that are about it.
* `random(1, 256)` is Arduino `1 + random() % 255`, and `random(3)` is
  `random() % 3`; the underlying `random()` values are an oracle stream
  `rnd : Nat → Nat` consumed left to right.
* `delayMillis` parameters only influence timing (they are passed to
  `belay`/`delay`), never which writes happen, so the write-trace models of
  the effect routines do not take them.
-/

namespace LEDKontroller

/-- `const int rLed = 9`. -/
def rLed : Int := 9

/-- `const int gLed = 10`. -/
def gLed : Int := 10

/-- `const int bLed = 11`. -/
def bLed : Int := 11

/-- `const int ledPins[] = {rLed, gLed, bLed}`. -/
def ledPins : List Int := [rLed, gLed, bLed]

/-- One call of `analogWrite`: the pin written and the intensity passed. -/
structure Write where
  pin : Int
  value : Int
deriving DecidableEq, Repr

/-- `setLed(led, brightness)` performs `analogWrite(led, brightness)`. -/
def setLed (led : Int) (brightness : Int) : Write :=
  ⟨led, brightness⟩

/-- `ledsOff()`: the three writes `setLed(rLed,0); setLed(gLed,0); setLed(bLed,0)`. -/
def ledsOff : List Write := [setLed rLed 0, setLed gLed 0, setLed bLed 0]

/-- The modulus of AVR `unsigned long` arithmetic, `2 ^ 32`. -/
def ulongWrap : Nat := 4294967296

/-- The signal-monitor state: the globals `remoteState`, `lastOn`, `lastOff`. -/
structure Monitor where
  remoteState : Bool
  lastOn : Nat
  lastOff : Nat
deriving DecidableEq, Repr

/-- The initial values of the globals: `lastOn = 0`, `lastOff = 0`,
`remoteState = false`. -/
def initialMonitor : Monitor := ⟨false, 0, 0⟩

/-- `millisSinceLastOff()` at time `now`: `millis() - lastOff` in
`unsigned long` arithmetic. -/
def millisSinceLastOff (now : Nat) (m : Monitor) : Nat :=
  (now - m.lastOff) % ulongWrap

/-- `millisSinceLastOn()` at time `now`: `millis() - lastOn` in
`unsigned long` arithmetic. -/
def millisSinceLastOn (now : Nat) (m : Monitor) : Nat :=
  (now - m.lastOn) % ulongWrap

/-- `switchOn()` called at time `now`: returns the updated monitor state and
the returned boolean (`remoteState`). -/
def switchOn (now : Nat) (m : Monitor) : Monitor × Bool :=
  if m.remoteState then
    if millisSinceLastOff now m ≤ millisSinceLastOn now m then
      ({ m with lastOn := now }, m.remoteState)
    else
      (m, m.remoteState)
  else
    if millisSinceLastOn now m < millisSinceLastOff now m then
      ({ m with lastOff := now }, m.remoteState)
    else
      (m, m.remoteState)

/-- An event acting on the monitor state: either the interrupt handler
`updateState` observing the raw level `level`, or a `switchOn()` call at
time `now`. -/
inductive SigEv where
  | edge (level : Bool)
  | poll (now : Nat)
deriving DecidableEq, Repr

/-- One event step: `updateState` writes `remoteState` only; `poll` runs
`switchOn`. -/
def stepEv (m : Monitor) : SigEv → Monitor
  | SigEv.edge b => { m with remoteState := b }
  | SigEv.poll t => (switchOn t m).1

/-- Run a sequence of events from a monitor state. -/
def runEvs (m : Monitor) (evs : List SigEv) : Monitor :=
  evs.foldl stepEv m

/-- Run a sequence of `switchOn()` calls at the given times. -/
def runPolls (m : Monitor) (ts : List Nat) : Monitor :=
  ts.foldl (fun s u => (switchOn u s).1) m

/-- The C cast `(unsigned long)period` of the 32-bit signed `long period`. -/
def ulong (p : Int) : Nat :=
  (p % (4294967296 : Int)).toNat

/-- `belay(period)` entered at time `start`.  `polls` is the trace of
`(remoteState, millis())` pairs read by successive loop iterations; the
result is `some t` when the loop exits at the poll read at time `t`
(either because `remoteState` was false or because
`millis() - start >= (unsigned long)period`), and `none` when the loop is
still running after consuming the whole trace. -/
def belay (start : Nat) (period : Int) : List (Bool × Nat) → Option Nat
  | [] => none
  | (false, t) :: _ => some t
  | (true, t) :: rest =>
    if (t - start) % ulongWrap ≥ ulong period then some t
    else belay start period rest

/-- The exit condition of one `belay` loop iteration: `remoteState` read
false, or `millis() - start >= (unsigned long)period`. -/
def belayExit (start : Nat) (period : Int) (q : Bool × Nat) : Bool :=
  !q.1 || decide ((q.2 - start) % ulongWrap ≥ ulong period)

/-- `belay` together with the monitor state it runs under.  The body of
`belay` contains no assignment: it reads `remoteState` (the `polls` trace)
and `millis()` only, so the monitor component passes through unchanged. -/
def belayS (m : Monitor) (start : Nat) (period : Int)
    (polls : List (Bool × Nat)) : Monitor × Option Nat :=
  (m, belay start period polls)

/-- The `while (switchOn()) { delay(fastPollMillis); }` loop of
`staticColorProgram`, followed by the trailing `ledsOff()`. -/
def staticColorLoop : List Bool → List Write
  | [] => ledsOff
  | false :: _ => ledsOff
  | true :: tr => staticColorLoop tr

/-- `staticColorProgram(r, g, b)`: writes the fixed triple, then polls
`switchOn()` until it reads false, then `ledsOff()`. -/
def staticColorProgram (r g b : Int) (polls : List Bool) : List Write :=
  setLed rLed r :: setLed gLed g :: setLed bLed b :: staticColorLoop polls

/-- The inner `while (remoteState)` channel ramp of `fadeLedProgram` for pin
`pin`, from current `brightness` and `fadeAmount`.  Returns the writes
emitted, the final `fadeAmount`, and the unconsumed poll trace. -/
def fadeChannel (pin : Int) : Int → Int → List Bool → List Write × Int × List Bool
  | _, f, [] => ([], f, [])
  | _, f, false :: tr => ([], f, tr)
  | b, f, true :: tr =>
    let b' := b + f
    let f' := if b' ≤ 0 ∨ 255 ≤ b' then -f else f
    if b' ≤ 0 then
      ([setLed pin b'], f', tr)
    else
      let r := fadeChannel pin b' f' tr
      (setLed pin b' :: r.1, r.2.1, r.2.2)

/-- The `for (int i=0; i<3; i++)` loop of `fadeLedProgram`: each channel
ramp starts from `brightness = 0` and threads `fadeAmount` through. -/
def fadeChannels : List Int → Int → List Bool → List Write × Int × List Bool
  | [], f, tr => ([], f, tr)
  | pin :: pins, f, tr =>
    let r1 := fadeChannel pin 0 f tr
    let r2 := fadeChannels pins r1.2.1 r1.2.2
    (r1.1 ++ r2.1, r2.2.1, r2.2.2)

/-- The outer `while (switchOn())` loop of `fadeLedProgram`, followed by the
trailing `ledsOff()`.  `fuel` only bounds the loop unrolling: every
iteration consumes at least the one poll read by `switchOn()`, so the
wrapper below instantiates `fuel` large enough that it is never
exhausted. -/
def fadeLoopF : Nat → Int → List Bool → List Write
  | 0, _, _ => ledsOff
  | _ + 1, _, [] => ledsOff
  | _ + 1, _, false :: _ => ledsOff
  | fuel + 1, f, true :: tr =>
    let r := fadeChannels ledPins f tr
    r.1 ++ fadeLoopF fuel r.2.1 r.2.2

/-- `fadeLedProgram(fadeAmount, delayMillis)` (Sequential Fade). -/
def fadeLedProgram (fadeAmount : Int) (polls : List Bool) : List Write :=
  fadeLoopF (polls.length + 1) fadeAmount polls

/-- The `while (switchOn())` loop of `alt_fadeLedProgram`, carrying the
shared `brightness` and `fadeAmount`, followed by the trailing
`ledsOff()`. -/
def altFadeLoop : Int → Int → List Bool → List Write
  | _, _, [] => ledsOff
  | _, _, false :: _ => ledsOff
  | b, f, true :: tr =>
    let b' := b + f
    let f' := if b' ≤ 0 ∨ 255 ≤ b' then -f else f
    setLed rLed b' :: setLed gLed b' :: setLed bLed b' :: altFadeLoop b' f' tr

/-- `alt_fadeLedProgram(fadeAmount, delayMillis)` (Synchronized Fade):
`brightness` starts at 0 outside the loop. -/
def alt_fadeLedProgram (fadeAmount : Int) (polls : List Bool) : List Write :=
  altFadeLoop 0 fadeAmount polls

/-- The `for` body of `runningColorsProgram`: for each pin, full intensity,
`belay`, zero.  `belay` returning early does not stop the `for` loop, so
all six writes happen regardless of the signal. -/
def runningChannels : List Int → List Write
  | [] => []
  | pin :: pins => setLed pin 255 :: setLed pin 0 :: runningChannels pins

/-- The `while (switchOn())` loop of `runningColorsProgram`, followed by the
trailing `ledsOff()`. -/
def runningLoop : List Bool → List Write
  | [] => ledsOff
  | false :: _ => ledsOff
  | true :: tr => runningChannels ledPins ++ runningLoop tr

/-- `runningColorsProgram(delayMillis)` (Sequential Flash). -/
def runningColorsProgram (polls : List Bool) : List Write :=
  runningLoop polls

/-- The `while (switchOn())` loop of `blinkLedProgram`: all channels to 255,
`belay`, `ledsOff()`, `belay`; then the trailing `ledsOff()`. -/
def blinkLoop : List Bool → List Write
  | [] => ledsOff
  | false :: _ => ledsOff
  | true :: tr =>
    (setLed rLed 255 :: setLed gLed 255 :: setLed bLed 255 :: ledsOff) ++ blinkLoop tr

/-- `blinkLedProgram(delayMillis)` (Blink). -/
def blinkLedProgram (polls : List Bool) : List Write :=
  blinkLoop polls

/-- Arduino `random(1, 256)` on the `k`-th draw of the oracle stream `rnd`:
`1 + random() % 255`, a value in `[1, 255]`. -/
def randomHigh (rnd : Nat → Nat) (k : Nat) : Int :=
  ((1 + rnd k % 255 : Nat) : Int)

/-- The `while (switchOn())` loop of `colorBlasterProgram`: three fresh
`random(1, 256)` draws per iteration; then the trailing `ledsOff()`. -/
def colorBlasterLoop (rnd : Nat → Nat) : Nat → List Bool → List Write
  | _, [] => ledsOff
  | _, false :: _ => ledsOff
  | k, true :: tr =>
    setLed rLed (randomHigh rnd k) :: setLed gLed (randomHigh rnd (k + 1)) ::
      setLed bLed (randomHigh rnd (k + 2)) :: colorBlasterLoop rnd (k + 3) tr

/-- `colorBlasterProgram(delayMillis)` (Random Color Jump). -/
def colorBlasterProgram (rnd : Nat → Nat) (polls : List Bool) : List Write :=
  colorBlasterLoop rnd 0 polls

/-- The `while (switchOn())` loop of `alt_colorBlasterProgram`:
`setLed(ledPins[random(3)], random(1, 256))` per iteration; then the
trailing `ledsOff()`. -/
def altColorBlasterLoop (rnd : Nat → Nat) : Nat → List Bool → List Write
  | _, [] => ledsOff
  | _, false :: _ => ledsOff
  | k, true :: tr =>
    setLed (ledPins.getD (rnd k % 3) rLed) (randomHigh rnd (k + 1)) ::
      altColorBlasterLoop rnd (k + 2) tr

/-- `alt_colorBlasterProgram(delayMillis)` (Random Color Walk): three
initial `random(1, 256)` writes happen before the first `switchOn()`
poll. -/
def alt_colorBlasterProgram (rnd : Nat → Nat) (polls : List Bool) : List Write :=
  setLed rLed (randomHigh rnd 0) :: setLed gLed (randomHigh rnd 1) ::
    setLed bLed (randomHigh rnd 2) :: altColorBlasterLoop rnd 3 polls

/-- The seven effect routines, in the order of the `switch` cases of
`loop()`. -/
inductive Effect where
  | staticColor
  | fadeLed
  | altFadeLed
  | runningColors
  | blinkLed
  | colorBlaster
  | altColorBlaster
deriving DecidableEq, Repr

/-- The effect rotation order fixed by the `switch` statement of `loop()`:
cases 0 through 6. -/
def effectOrder : List Effect :=
  [Effect.staticColor, Effect.fadeLed, Effect.altFadeLed, Effect.runningColors,
   Effect.blinkLed, Effect.colorBlaster, Effect.altColorBlaster]

/-- The `switch (program)` statement of `loop()`: cases 0–6 run the listed
effect and fall through to `program += 1`; `default` sets `program = 0` and
`continue`s (modelled as `none`). -/
def programSwitch (program : Int) : Option Effect × Int :=
  if program = 0 then (some Effect.staticColor, program + 1)
  else if program = 1 then (some Effect.fadeLed, program + 1)
  else if program = 2 then (some Effect.altFadeLed, program + 1)
  else if program = 3 then (some Effect.runningColors, program + 1)
  else if program = 4 then (some Effect.blinkLed, program + 1)
  else if program = 5 then (some Effect.colorBlaster, program + 1)
  else if program = 6 then (some Effect.altColorBlaster, program + 1)
  else (none, 0)

/-- One signal-on event of the scheduler: the effect dispatched during that
assertion of the signal, and the counter afterwards.  When `programSwitch`
hits `default`, the `continue` re-runs the loop body; the signal is still
asserted (the dispatched effect is what blocks until it drops), so the
re-poll dispatches from the reset counter within the same event.  The
second `none` arm is unreachable: `default` resets the counter to 0 and
case 0 exists. -/
def onSignalOn (program : Int) : Effect × Int :=
  match programSwitch program with
  | (some e, p') => (e, p')
  | (none, p0) =>
    match programSwitch p0 with
    | (some e, p') => (e, p')
    | (none, p') => (Effect.staticColor, p')

/-- The effects dispatched over `n` consecutive signal-on events, starting
from counter value `program`. -/
def schedEffects : Nat → Int → List Effect
  | 0, _ => []
  | n + 1, program =>
    (onSignalOn program).1 :: schedEffects n (onSignalOn program).2

/-- One iteration of the `while (true)` loop of `loop()`, at dispatch level:
the `switchOn()` call, then either the effect dispatch (signal on) or the
hibernation-threshold check (signal off).  Returns the monitor after the
poll, the counter afterwards, the effect dispatched (if any), and whether
the hibernation wait was entered. -/
def loopIter (m : Monitor) (now : Nat) (program : Int) :
    Monitor × Int × Option Effect × Bool :=
  let r := switchOn now m
  if r.2 then
    ((r.1, (onSignalOn program).2, some (onSignalOn program).1, false))
  else if millisSinceLastOff now r.1 > 10000 then
    (r.1, 0, none, true)
  else
    (r.1, program, none, false)

end LEDKontroller

namespace LEDKontroller

lemma suffix_append_left {s l : List Write} (w : List Write)
    (h : List.IsSuffix s l) : List.IsSuffix s (w ++ l) :=
  h.trans (List.suffix_append w l)

lemma suffix_cons3 {s L : List Write} (a b c : Write)
    (h : List.IsSuffix s L) : List.IsSuffix s (a :: b :: c :: L) :=
  ((h.trans (List.suffix_cons c L)).trans (List.suffix_cons b _)).trans
    (List.suffix_cons a _)

lemma staticColorLoop_suffix (polls : List Bool) :
    List.IsSuffix ledsOff (staticColorLoop polls) := by
  induction polls with
  | nil => exact List.suffix_refl _
  | cons sig tr ih =>
    cases sig
    · exact List.suffix_refl _
    · exact ih

lemma fadeLoopF_suffix (fuel : Nat) :
    ∀ (f : Int) (polls : List Bool), List.IsSuffix ledsOff (fadeLoopF fuel f polls) := by
  induction fuel with
  | zero => intro f polls; exact List.suffix_refl _
  | succ fuel ih =>
    intro f polls
    cases polls with
    | nil => exact List.suffix_refl _
    | cons sig tr =>
      cases sig
      · exact List.suffix_refl _
      · exact suffix_append_left _ (ih _ _)

lemma altFadeLoop_suffix (polls : List Bool) :
    ∀ (b f : Int), List.IsSuffix ledsOff (altFadeLoop b f polls) := by
  induction polls with
  | nil => intro b f; exact List.suffix_refl _
  | cons sig tr ih =>
    intro b f
    cases sig
    · exact List.suffix_refl _
    · exact suffix_cons3 _ _ _ (ih _ _)

lemma runningLoop_suffix (polls : List Bool) :
    List.IsSuffix ledsOff (runningLoop polls) := by
  induction polls with
  | nil => exact List.suffix_refl _
  | cons sig tr ih =>
    cases sig
    · exact List.suffix_refl _
    · exact suffix_append_left _ ih

lemma blinkLoop_suffix (polls : List Bool) :
    List.IsSuffix ledsOff (blinkLoop polls) := by
  induction polls with
  | nil => exact List.suffix_refl _
  | cons sig tr ih =>
    cases sig
    · exact List.suffix_refl _
    · exact suffix_append_left _ ih

lemma colorBlasterLoop_suffix (rnd : Nat → Nat) (polls : List Bool) :
    ∀ (k : Nat), List.IsSuffix ledsOff (colorBlasterLoop rnd k polls) := by
  induction polls with
  | nil => intro k; exact List.suffix_refl _
  | cons sig tr ih =>
    intro k
    cases sig
    · exact List.suffix_refl _
    · exact suffix_cons3 _ _ _ (ih _)

lemma altColorBlasterLoop_suffix (rnd : Nat → Nat) (polls : List Bool) :
    ∀ (k : Nat), List.IsSuffix ledsOff (altColorBlasterLoop rnd k polls) := by
  induction polls with
  | nil => intro k; exact List.suffix_refl _
  | cons sig tr ih =>
    intro k
    cases sig
    · exact List.suffix_refl _
    · exact (ih _).trans (List.suffix_cons _ _)

/-- C2: every one of the seven effect routines, for every trace of signal
polls (in particular once its controlling condition reads off), performs
the three writes `setLed(rLed,0); setLed(gLed,0); setLed(bLed,0)` of
`ledsOff()` as its final output action before returning to the
scheduler. -/
theorem programs_end_with_ledsOff :
    (∀ (r g b : Int) (polls : List Bool),
        List.IsSuffix ledsOff (staticColorProgram r g b polls))
  ∧ (∀ (fadeAmount : Int) (polls : List Bool),
        List.IsSuffix ledsOff (fadeLedProgram fadeAmount polls))
  ∧ (∀ (fadeAmount : Int) (polls : List Bool),
        List.IsSuffix ledsOff (alt_fadeLedProgram fadeAmount polls))
  ∧ (∀ (polls : List Bool), List.IsSuffix ledsOff (runningColorsProgram polls))
  ∧ (∀ (polls : List Bool), List.IsSuffix ledsOff (blinkLedProgram polls))
  ∧ (∀ (rnd : Nat → Nat) (polls : List Bool),
        List.IsSuffix ledsOff (colorBlasterProgram rnd polls))
  ∧ (∀ (rnd : Nat → Nat) (polls : List Bool),
        List.IsSuffix ledsOff (alt_colorBlasterProgram rnd polls)) :=
  ⟨fun _ _ _ polls => suffix_cons3 _ _ _ (staticColorLoop_suffix polls),
   fun f polls => fadeLoopF_suffix _ f polls,
   fun f polls => altFadeLoop_suffix polls 0 f,
   fun polls => runningLoop_suffix polls,
   fun polls => blinkLoop_suffix polls,
   fun rnd polls => colorBlasterLoop_suffix rnd polls 0,
   fun rnd polls => suffix_cons3 _ _ _ (altColorBlasterLoop_suffix rnd polls 3)⟩

/-- C9: `staticColorProgram` and `alt_colorBlasterProgram` write their
initial frame (the fixed RGB triple, respectively three random
intensities) before the first `switchOn()` check, so when the signal
already reads off at entry each routine emits exactly that one frame and
then the `ledsOff()` zeros. -/
theorem initial_frame_before_first_poll :
    ∀ (r g b : Int) (polls : List Bool) (rnd : Nat → Nat),
      staticColorProgram r g b (false :: polls) =
        [setLed rLed r, setLed gLed g, setLed bLed b] ++ ledsOff
    ∧ alt_colorBlasterProgram rnd (false :: polls) =
        [setLed rLed (randomHigh rnd 0), setLed gLed (randomHigh rnd 1),
         setLed bLed (randomHigh rnd 2)] ++ ledsOff :=
  fun _ _ _ _ _ => ⟨rfl, rfl⟩

/-- C7: for every duration and every poll trace, `belay` leaves the signal
monitor unchanged: it never writes `remoteState`, `lastOn` or `lastOff`;
it is read-only with respect to the signal monitor. -/
theorem belay_monitor_frame :
    ∀ (m : Monitor) (start : Nat) (period : Int) (polls : List (Bool × Nat)),
      (belayS m start period polls).1.remoteState = m.remoteState
    ∧ (belayS m start period polls).1.lastOn = m.lastOn
    ∧ (belayS m start period polls).1.lastOff = m.lastOff :=
  fun _ _ _ _ => ⟨rfl, rfl, rfl⟩

/-- C1 counterexample: with `fadeAmount = 250` (inside `[1,255]`),
`alt_fadeLedProgram` passes intensity 500 to the channel sink after two
always-on polls, and `fadeLedProgram` passes intensity `-250` to the green
channel when the signal drops during the descent of the red ramp and
re-asserts at the start of the green ramp; both escape `[0,255]`. -/
theorem fade_range_counterexample :
    (setLed rLed 500 ∈ alt_fadeLedProgram 250 [true, true]
      ∧ ¬((setLed rLed 500).value ≤ 255))
  ∧ (setLed gLed (-250) ∈ fadeLedProgram 250 [true, true, true, false, true]
      ∧ ¬(0 ≤ (setLed gLed (-250)).value)) := by
  decide

/-- C3 counterexample: from the boot state (`remoteState = false`,
`lastOn = lastOff = 0`), after a single off-to-on edge, the `switchOn()`
poll at time 0 leaves `lastOn = 0` and the next poll at time 5 moves
`lastOn` to 5: the last-on timestamp changes at the second poll of a
sustained on period, with no intervening edge, so repeated `switchOn()`
calls are not idempotent there. -/
theorem switchOn_idempotence_counterexample :
    (runEvs initialMonitor [SigEv.edge true, SigEv.poll 0]).lastOn = 0
  ∧ (runEvs initialMonitor [SigEv.edge true, SigEv.poll 0, SigEv.poll 5]).lastOn = 5 := by
  decide

end LEDKontroller

namespace LEDKontroller

lemma switchOn_snd (now : Nat) (m : Monitor) :
    (switchOn now m).2 = m.remoteState := by
  unfold switchOn
  split_ifs <;> rfl

lemma switchOn_stable_on (m : Monitor) (u : Nat) (hrs : m.remoteState = true)
    (h1 : m.lastOff < m.lastOn) (h2 : m.lastOn ≤ u)
    (h3 : u - m.lastOff < ulongWrap) :
    (switchOn u m).1 = m := by
  have hc : ¬ (millisSinceLastOff u m ≤ millisSinceLastOn u m) := by
    simp only [millisSinceLastOff, millisSinceLastOn]
    rw [Nat.mod_eq_of_lt h3, Nat.mod_eq_of_lt (by omega)]
    omega
  simp [switchOn, hrs, hc]

lemma switchOn_stable_off (m : Monitor) (u : Nat) (hrs : m.remoteState = false)
    (h1 : m.lastOn ≤ m.lastOff) (h2 : m.lastOff ≤ u)
    (h3 : u - m.lastOn < ulongWrap) :
    (switchOn u m).1 = m := by
  have hc : ¬ (millisSinceLastOn u m < millisSinceLastOff u m) := by
    simp only [millisSinceLastOff, millisSinceLastOn]
    rw [Nat.mod_eq_of_lt h3, Nat.mod_eq_of_lt (by omega)]
    omega
  simp [switchOn, hrs, hc]

lemma switchOn_on_update (m : Monitor) (t : Nat) (hrs : m.remoteState = true)
    (hord : m.lastOn ≤ m.lastOff) (hlt : m.lastOff ≤ t)
    (hwrap : t - m.lastOn < ulongWrap) :
    (switchOn t m).1 = { m with lastOn := t } := by
  have hc : millisSinceLastOff t m ≤ millisSinceLastOn t m := by
    simp only [millisSinceLastOff, millisSinceLastOn]
    rw [Nat.mod_eq_of_lt hwrap, Nat.mod_eq_of_lt (by omega)]
    omega
  simp [switchOn, hrs, hc]

lemma switchOn_off_update (m : Monitor) (t : Nat) (hrs : m.remoteState = false)
    (hord : m.lastOff < m.lastOn) (hlt : m.lastOn ≤ t)
    (hwrap : t - m.lastOff < ulongWrap) :
    (switchOn t m).1 = { m with lastOff := t } := by
  have hc : millisSinceLastOn t m < millisSinceLastOff t m := by
    simp only [millisSinceLastOff, millisSinceLastOn]
    rw [Nat.mod_eq_of_lt hwrap, Nat.mod_eq_of_lt (by omega)]
    omega
  simp [switchOn, hrs, hc]

lemma runPolls_fixed (ts : List Nat) :
    ∀ (m : Monitor), (∀ u ∈ ts, (switchOn u m).1 = m) → runPolls m ts = m := by
  induction ts with
  | nil => intro m _; rfl
  | cons u ts ih =>
    intro m h
    have h0 : (switchOn u m).1 = m := h u (List.mem_cons_self u ts)
    simp only [runPolls, List.foldl_cons]
    rw [h0]
    exact ih m fun v hv => h v (List.mem_cons_of_mem _ hv)

/-- C3 (amended): provided the first `switchOn()` call after an off-to-on
edge happens at a time strictly later than the recorded `lastOff` (so
that the two timestamps become strictly ordered), `lastOn` is set to that
call's time exactly once, and every later `switchOn()` call of the
sustained on period leaves both timestamps (and the whole monitor state)
unchanged; the symmetric rule for on-to-off edges holds whenever the
first call is at or after the recorded `lastOn`.  (Without the strictness
proviso the claim fails: see the boot counterexample, where
`lastOn = lastOff` makes every on-poll rewrite `lastOn`.) -/
theorem switchOn_edge_discipline (m : Monitor) (t : Nat) (ts : List Nat) :
    (m.remoteState = true → m.lastOn ≤ m.lastOff → m.lastOff < t →
      t - m.lastOn < ulongWrap →
      (switchOn t m).1 = { m with lastOn := t }
      ∧ ((∀ u ∈ ts, t ≤ u ∧ u - m.lastOff < ulongWrap) →
          runPolls { m with lastOn := t } ts = { m with lastOn := t }))
  ∧ (m.remoteState = false → m.lastOff < m.lastOn → m.lastOn ≤ t →
      t - m.lastOff < ulongWrap →
      (switchOn t m).1 = { m with lastOff := t }
      ∧ ((∀ u ∈ ts, t ≤ u ∧ u - m.lastOn < ulongWrap) →
          runPolls { m with lastOff := t } ts = { m with lastOff := t })) := by
  constructor
  · intro hrs hord hlt hwrap
    refine ⟨switchOn_on_update m t hrs hord (le_of_lt hlt) hwrap, fun hts => ?_⟩
    apply runPolls_fixed
    intro u hu
    exact switchOn_stable_on { m with lastOn := t } u hrs hlt (hts u hu).1 (hts u hu).2
  · intro hrs hord hlt hwrap
    refine ⟨switchOn_off_update m t hrs hord hlt hwrap, fun hts => ?_⟩
    apply runPolls_fixed
    intro u hu
    exact switchOn_stable_off { m with lastOff := t } u hrs hlt (hts u hu).1 (hts u hu).2

theorem switchOn_edge_discipline_witness :
    (switchOn 10 ⟨true, 2, 4⟩).1 = ⟨true, 10, 4⟩
  ∧ runPolls ⟨true, 10, 4⟩ [11, 25] = ⟨true, 10, 4⟩ := by
  have h := (switchOn_edge_discipline ⟨true, 2, 4⟩ 10 [11, 25]).1 rfl
    (by decide) (by decide) (by decide)
  exact ⟨h.1, h.2 (by decide)⟩

/-- C8: after a `switchOn()` call at a time `t` at or after both recorded
timestamps, the timestamp ordering matches the returned state: a true
return leaves `lastOff ≤ lastOn`, a false return leaves
`lastOn ≤ lastOff`; and the interrupt handler (`updateState`, the only
other operation touching the monitor) preserves both timestamps. -/
theorem switchOn_return_matches_timestamps (m : Monitor) (t : Nat)
    (h1 : m.lastOn ≤ t) (h2 : m.lastOff ≤ t)
    (h3 : t - m.lastOn < ulongWrap) (h4 : t - m.lastOff < ulongWrap) :
    ((switchOn t m).2 = true →
      (switchOn t m).1.lastOff ≤ (switchOn t m).1.lastOn)
  ∧ ((switchOn t m).2 = false →
      (switchOn t m).1.lastOn ≤ (switchOn t m).1.lastOff)
  ∧ (∀ b : Bool, (stepEv m (SigEv.edge b)).lastOn = m.lastOn
      ∧ (stepEv m (SigEv.edge b)).lastOff = m.lastOff) := by
  refine ⟨?_, ?_, fun b => ⟨rfl, rfl⟩⟩
  · intro hret
    unfold switchOn at hret ⊢
    split_ifs at hret ⊢ with hb hc hd
    · exact h2
    · simp only [millisSinceLastOff, millisSinceLastOn] at hc
      rw [Nat.mod_eq_of_lt h4, Nat.mod_eq_of_lt h3] at hc
      show m.lastOff ≤ m.lastOn
      omega
    · exact absurd hret hb
    · exact absurd hret hb
  · intro hret
    unfold switchOn at hret ⊢
    split_ifs at hret ⊢ with hb hc hd
    · simp [hb] at hret
    · simp [hb] at hret
    · exact h1
    · simp only [millisSinceLastOff, millisSinceLastOn] at hd
      rw [Nat.mod_eq_of_lt h3, Nat.mod_eq_of_lt h4] at hd
      show m.lastOn ≤ m.lastOff
      omega

theorem switchOn_return_matches_timestamps_witness :
    (switchOn 7 ⟨true, 1, 3⟩).1.lastOff ≤ (switchOn 7 ⟨true, 1, 3⟩).1.lastOn :=
  (switchOn_return_matches_timestamps ⟨true, 1, 3⟩ 7
    (by decide) (by decide) (by decide) (by decide)).1 (by decide)

/-- C5: while the signal reads off, one scheduler iteration enters the
hibernation wait only when the continuous off-time `now - lastOff`
exceeds 10000 ms; below or at the threshold it dispatches no effect and
leaves the counter untouched, and on entering hibernation it resets the
counter to 0, from which the next signal-on event dispatches the first
effect (Static Color). -/
theorem hibernate_threshold (m : Monitor) (now : Nat) (program : Int)
    (hrs : m.remoteState = false) (hord : m.lastOn ≤ m.lastOff)
    (hle : m.lastOff ≤ now) (hwrap : now - m.lastOn < ulongWrap) :
    (now - m.lastOff ≤ 10000 →
      loopIter m now program = (m, program, none, false))
  ∧ (10000 < now - m.lastOff →
      loopIter m now program = (m, 0, none, true))
  ∧ onSignalOn 0 = (Effect.staticColor, 1) := by
  have hstable : (switchOn now m).1 = m :=
    switchOn_stable_off m now hrs hord hle hwrap
  have hsnd : (switchOn now m).2 = false := by
    rw [switchOn_snd, hrs]
  have emod : millisSinceLastOff now m = now - m.lastOff := by
    simp only [millisSinceLastOff]
    exact Nat.mod_eq_of_lt (by omega)
  refine ⟨?_, ?_, by decide⟩
  · intro hth
    have hc : ¬ (millisSinceLastOff now m > 10000) := by
      rw [emod]; omega
    simp [loopIter, hsnd, hstable, hc]
  · intro hth
    have hc : millisSinceLastOff now m > 10000 := by
      rw [emod]; omega
    simp [loopIter, hsnd, hstable, hc]

theorem hibernate_threshold_witness :
    loopIter ⟨false, 3, 5⟩ 10005 4 = (⟨false, 3, 5⟩, 4, none, false)
  ∧ loopIter ⟨false, 3, 5⟩ 10006 4 = (⟨false, 3, 5⟩, 0, none, true) :=
  ⟨(hibernate_threshold ⟨false, 3, 5⟩ 10005 4 rfl (by decide) (by decide)
      (by decide)).1 (by decide),
   (hibernate_threshold ⟨false, 3, 5⟩ 10006 4 rfl (by decide) (by decide)
      (by decide)).2.1 (by decide)⟩

end LEDKontroller

namespace LEDKontroller

lemma ulong_of_nonneg (d : Int) (h0 : 0 ≤ d) (h1 : d < 4294967296) :
    ulong d = d.toNat := by
  unfold ulong
  rw [Int.emod_eq_of_lt h0 h1]

lemma ulong_of_neg (d : Int) (h0 : -(2 ^ 31) ≤ d) (h1 : d < 0) :
    ulong d = (d + 4294967296).toNat := by
  unfold ulong
  have h : d % 4294967296 = d + 4294967296 := by omega
  rw [h]

lemma belay_eq_find (start : Nat) (d : Int) :
    ∀ polls : List (Bool × Nat),
      belay start d polls = (polls.find? (belayExit start d)).map Prod.snd := by
  intro polls
  induction polls with
  | nil => rfl
  | cons q rest ih =>
    obtain ⟨rs, t⟩ := q
    cases rs with
    | false => simp [belay, belayExit, List.find?]
    | true =>
      by_cases hel : (t - start) % ulongWrap ≥ ulong d
      · simp [belay, belayExit, List.find?, hel]
      · simp [belay, belayExit, List.find?, hel, ih]

end LEDKontroller

namespace LEDKontroller

/-- C6: `belay(d)` for a non-negative in-range duration `d` behaves as the
interruptible wait: it returns exactly at the first loop iteration whose
poll reads the signal off or observes `millis() - start >= d` (the
`find?` characterization); in particular it terminates as soon as any
poll reads off or `d` has elapsed, and whenever it returns, either the
signal read off or at least `d` milliseconds had elapsed. -/
theorem belay_contract (start : Nat) (d : Int) (polls : List (Bool × Nat))
    (hd0 : 0 ≤ d) (hd1 : d < 4294967296) :
    belay start d polls = (polls.find? (belayExit start d)).map Prod.snd
  ∧ (∀ q ∈ polls, q.1 = false → (belay start d polls).isSome = true)
  ∧ (∀ q ∈ polls, d.toNat ≤ (q.2 - start) % ulongWrap →
      (belay start d polls).isSome = true)
  ∧ (∀ t, belay start d polls = some t →
      ∃ rs, (rs, t) ∈ polls ∧ (rs = false ∨ d.toNat ≤ (t - start) % ulongWrap)) := by
  have hfind := belay_eq_find start d polls
  have hul : ulong d = d.toNat := ulong_of_nonneg d hd0 hd1
  refine ⟨hfind, ?_, ?_, ?_⟩
  · intro q hq hq1
    rw [hfind, Option.isSome_map', List.find?_isSome]
    exact ⟨q, hq, by simp [belayExit, hq1]⟩
  · intro q hq hel
    rw [hfind, Option.isSome_map', List.find?_isSome]
    refine ⟨q, hq, ?_⟩
    simp only [belayExit, hul, Bool.or_eq_true, decide_eq_true_eq]
    exact Or.inr hel
  · intro t ht
    rw [hfind, Option.map_eq_some'] at ht
    obtain ⟨q, hfq, hsnd⟩ := ht
    have hmem := List.mem_of_find?_eq_some hfq
    have hex := List.find?_some hfq
    obtain ⟨rs, t'⟩ := q
    subst hsnd
    refine ⟨rs, hmem, ?_⟩
    simp only [belayExit, hul, Bool.or_eq_true, Bool.not_eq_true',
      decide_eq_true_eq] at hex
    exact hex

theorem belay_contract_witness :
    belay 0 (30 : Int) [(true, 10), (true, 40)] = some 40
  ∧ (belay 0 (30 : Int) [(true, 10), (true, 40)]).isSome = true := by
  have h := belay_contract 0 30 [(true, 10), (true, 40)] (by decide) (by decide)
  refine ⟨?_, h.2.2.1 (true, 40) (by decide) (by decide)⟩
  rw [h.1]
  decide

lemma belay_skip (start : Nat) (d : Int) :
    ∀ (polls rest : List (Bool × Nat)),
      (∀ q ∈ polls, q.1 = true ∧ (q.2 - start) % ulongWrap < ulong d) →
      belay start d (polls ++ rest) = belay start d rest := by
  intro polls
  induction polls with
  | nil => intro rest _; rfl
  | cons q ps ih =>
    intro rest h
    obtain ⟨rs, t⟩ := q
    have ha : rs = true := (h (rs, t) (List.mem_cons_self _ _)).1
    have hb : (t - start) % ulongWrap < ulong d :=
      (h (rs, t) (List.mem_cons_self _ _)).2
    subst ha
    simp only [List.cons_append, belay]
    rw [if_neg (not_le.mpr hb)]
    exact ih rest fun q hq => h q (List.mem_cons_of_mem _ hq)

/-- C10: for a negative `long` period `p` (so `-2147483648 ≤ p < 0`), the
cast `(unsigned long)period` yields the astronomically large
`p + 4294967296` (that is, `p` mod `2 ^ 32`, at least `2 ^ 31`), so as
long as every poll reads the signal on and the elapsed time stays below
`2 ^ 31` ms (about 24 days), `belay(p)` keeps blocking — it does not
return after `|p|` milliseconds — and it returns as soon as a poll reads
the signal off. -/
theorem belay_negative_blocks (start : Nat) (d : Int)
    (polls : List (Bool × Nat)) (t : Nat)
    (hneg : d < 0) (hrange : -2147483648 ≤ d)
    (hp : ∀ q ∈ polls, q.1 = true ∧ (q.2 - start) % ulongWrap < 2147483648) :
    ulong d = (d + 4294967296).toNat
  ∧ belay start d polls = none
  ∧ belay start d (polls ++ [(false, t)]) = some t := by
  have hul : ulong d = (d + 4294967296).toNat := ulong_of_neg d (by omega) hneg
  have hbig : 2147483648 ≤ ulong d := by
    rw [hul]; omega
  have hp' : ∀ q ∈ polls, q.1 = true ∧ (q.2 - start) % ulongWrap < ulong d :=
    fun q hq => ⟨(hp q hq).1, lt_of_lt_of_le (hp q hq).2 hbig⟩
  refine ⟨hul, ?_, ?_⟩
  · have hskip := belay_skip start d polls [] hp'
    simpa using hskip
  · rw [belay_skip start d polls [(false, t)] hp']
    rfl

theorem belay_negative_blocks_witness :
    ulong (-100 : Int) = ((-100 : Int) + 4294967296).toNat
  ∧ belay 0 (-100) [(true, 100), (true, 1000000)] = none
  ∧ belay 0 (-100) ([(true, 100), (true, 1000000)] ++ [(false, 2000000)]) =
      some 2000000 := by
  have h := belay_negative_blocks 0 (-100) [(true, 100), (true, 1000000)]
    2000000 (by decide) (by decide) (by decide)
  exact ⟨h.1, h.2.1, h.2.2⟩

end LEDKontroller

namespace LEDKontroller

lemma mem_ledsOff_value {w : Write} (h : w ∈ ledsOff) : w.value = 0 := by
  simp only [ledsOff, setLed, List.mem_cons, List.not_mem_nil, or_false] at h
  rcases h with h | h | h <;> subst h <;> rfl

lemma altFadeLoop_bounds (f0 : Int) (h1 : 1 ≤ f0) :
    ∀ (polls : List Bool) (b f : Int), f0 ∣ b →
      ((f = f0 ∧ 0 ≤ b ∧ b ≤ 254) ∨ (f = -f0 ∧ 1 ≤ b ∧ b ≤ 254 + f0)) →
      ∀ w ∈ altFadeLoop b f polls, 0 ≤ w.value ∧ w.value ≤ 254 + f0 := by
  intro polls
  induction polls with
  | nil =>
    intro b f _ _ w hw
    have h0 := mem_ledsOff_value hw
    omega
  | cons sig tr ih =>
    intro b f hdvd hinv w hw
    cases sig with
    | false =>
      have h0 := mem_ledsOff_value hw
      omega
    | true =>
      have hble : f0 ≤ b ∨ b = 0 := by
        rcases hinv with ⟨_, hb0, _⟩ | ⟨_, hb0, _⟩
        · rcases eq_or_lt_of_le hb0 with hb | hb
          · exact Or.inr hb.symm
          · exact Or.inl (Int.le_of_dvd hb hdvd)
        · exact Or.inl (Int.le_of_dvd (by omega) hdvd)
      have hval : 0 ≤ b + f ∧ b + f ≤ 254 + f0 := by
        rcases hinv with ⟨hf, hb0, hb1⟩ | ⟨hf, hb0, hb1⟩ <;> subst hf <;> omega
      have hdvd' : f0 ∣ b + f := by
        rcases hinv with ⟨hf, _, _⟩ | ⟨hf, _, _⟩ <;> subst hf
        · exact dvd_add hdvd dvd_rfl
        · exact dvd_add hdvd (dvd_neg.mpr dvd_rfl)
      simp only [altFadeLoop, List.mem_cons] at hw
      rcases hw with hw | hw | hw | hw
      · subst hw; exact hval
      · subst hw; exact hval
      · subst hw; exact hval
      · by_cases hc : b + f ≤ 0 ∨ 255 ≤ b + f
        · rw [if_pos hc] at hw
          apply ih (b + f) (-f) hdvd' ?_ w hw
          rcases hinv with ⟨hf, hb0, hb1⟩ | ⟨hf, hb0, hb1⟩ <;> subst hf
          · -- ascending flip: b + f0 ≥ 1 so the flip must be at the top
            rcases hc with hc | hc
            · omega
            · exact Or.inr ⟨by omega, by omega, by omega⟩
          · -- descending flip: divisibility forces landing exactly on 0
            rcases hc with hc | hc
            · have hb' : b + -f0 = 0 := by
                rcases hble with hble | hble <;> omega
              exact Or.inl ⟨by omega, by omega, by omega⟩
            · omega
        · rw [if_neg hc] at hw
          apply ih (b + f) f hdvd' ?_ w hw
          push_neg at hc
          rcases hinv with ⟨hf, hb0, hb1⟩ | ⟨hf, hb0, hb1⟩ <;> subst hf
          · exact Or.inl ⟨rfl, by omega, by omega⟩
          · exact Or.inr ⟨rfl, by omega, by omega⟩

end LEDKontroller

namespace LEDKontroller

lemma fadeChannel_bounds (pin : Int) (f0 : Int) (h1 : 1 ≤ f0) :
    ∀ (polls : List Bool) (b f : Int),
      (f = f0 ∨ f = -f0) → 0 ≤ b → b ≤ 254 + f0 → (f = f0 → b ≤ 254) →
      (∀ w ∈ (fadeChannel pin b f polls).1,
          -f0 ≤ w.value ∧ w.value ≤ 254 + f0)
      ∧ ((fadeChannel pin b f polls).2.1 = f0
          ∨ (fadeChannel pin b f polls).2.1 = -f0) := by
  intro polls
  induction polls with
  | nil =>
    intro b f hf _ _ _
    exact ⟨fun w hw => by simp [fadeChannel] at hw, hf⟩
  | cons sig tr ih =>
    intro b f hf hb0 hb1 hf254
    cases sig with
    | false =>
      exact ⟨fun w hw => by simp [fadeChannel] at hw, hf⟩
    | true =>
      have hval : -f0 ≤ b + f ∧ b + f ≤ 254 + f0 := by
        rcases hf with hf | hf
        · have h254 := hf254 hf
          subst hf; omega
        · subst hf; omega
      by_cases hb'0 : b + f ≤ 0
      · -- the ramp broke back to zero or below: emit once and stop
        have hc : b + f ≤ 0 ∨ 255 ≤ b + f := Or.inl hb'0
        refine ⟨?_, ?_⟩
        · intro w hw
          simp only [fadeChannel, if_pos hb'0, if_pos hc, List.mem_cons,
            List.not_mem_nil, or_false] at hw
          subst hw
          exact hval
        · simp only [fadeChannel, if_pos hb'0, if_pos hc]
          rcases hf with hf | hf <;> subst hf
          · exact Or.inr rfl
          · exact Or.inl (neg_neg f0)
      · by_cases htop : 255 ≤ b + f
        · -- direction flips at the top of the ramp; only ascending can reach it
          have hf0 : f = f0 := by
            rcases hf with hf | hf
            · exact hf
            · subst hf; omega
          have h254 : b ≤ 254 := hf254 hf0
          have hc : b + f ≤ 0 ∨ 255 ≤ b + f := Or.inr htop
          have hrec := ih (b + f) (-f) (Or.inr (by rw [hf0]))
            (by omega) (by omega) (fun hh => by rw [hf0] at hh; omega)
          refine ⟨?_, ?_⟩
          · intro w hw
            simp only [fadeChannel, if_neg hb'0, if_pos hc, List.mem_cons] at hw
            rcases hw with hw | hw
            · subst hw; exact hval
            · exact hrec.1 w hw
          · simp only [fadeChannel, if_neg hb'0, if_pos hc]
            exact hrec.2
        · -- no boundary crossed: direction kept
          have hcneg : ¬ (b + f ≤ 0 ∨ 255 ≤ b + f) := by omega
          have hub : b + f ≤ 254 + f0 := by
            rcases hf with hf | hf
            · have := hf254 hf; omega
            · omega
          have hrec := ih (b + f) f hf (by omega) hub (fun _ => by omega)
          refine ⟨?_, ?_⟩
          · intro w hw
            simp only [fadeChannel, if_neg hb'0, if_neg hcneg, List.mem_cons] at hw
            rcases hw with hw | hw
            · subst hw; exact hval
            · exact hrec.1 w hw
          · simp only [fadeChannel, if_neg hb'0, if_neg hcneg]
            exact hrec.2

end LEDKontroller

namespace LEDKontroller

lemma fadeChannels_bounds (f0 : Int) (h1 : 1 ≤ f0) :
    ∀ (pins : List Int) (polls : List Bool) (f : Int), (f = f0 ∨ f = -f0) →
      (∀ w ∈ (fadeChannels pins f polls).1,
          -f0 ≤ w.value ∧ w.value ≤ 254 + f0)
      ∧ ((fadeChannels pins f polls).2.1 = f0
          ∨ (fadeChannels pins f polls).2.1 = -f0) := by
  intro pins
  induction pins with
  | nil =>
    intro polls f hf
    exact ⟨fun w hw => by simp [fadeChannels] at hw, hf⟩
  | cons pin pins ih =>
    intro polls f hf
    have hch := fadeChannel_bounds pin f0 h1 polls 0 f hf (le_refl 0)
      (by omega) (fun _ => by omega)
    have hrest := ih (fadeChannel pin 0 f polls).2.2
      (fadeChannel pin 0 f polls).2.1 hch.2
    constructor
    · intro w hw
      simp only [fadeChannels, List.mem_append] at hw
      rcases hw with hw | hw
      · exact hch.1 w hw
      · exact hrest.1 w hw
    · simp only [fadeChannels]
      exact hrest.2

lemma fadeLoopF_bounds (f0 : Int) (h1 : 1 ≤ f0) :
    ∀ (fuel : Nat) (f : Int) (polls : List Bool), (f = f0 ∨ f = -f0) →
      ∀ w ∈ fadeLoopF fuel f polls, -f0 ≤ w.value ∧ w.value ≤ 254 + f0 := by
  intro fuel
  induction fuel with
  | zero =>
    intro f polls _ w hw
    have h0 := mem_ledsOff_value hw
    omega
  | succ fuel ih =>
    intro f polls hf
    cases polls with
    | nil =>
      intro w hw
      have h0 := mem_ledsOff_value hw
      omega
    | cons sig tr =>
      cases sig with
      | false =>
        intro w hw
        have h0 := mem_ledsOff_value hw
        omega
      | true =>
        intro w hw
        simp only [fadeLoopF, List.mem_append] at hw
        rcases hw with hw | hw
        · exact (fadeChannels_bounds f0 h1 ledPins tr f hf).1 w hw
        · exact ih (fadeChannels ledPins f tr).2.1 (fadeChannels ledPins f tr).2.2
            (fadeChannels_bounds f0 h1 ledPins tr f hf).2 w hw

/-- C1 (amended): for every `fadeAmount` in `[1,255]` and every signal
trace, the Sequential Fade routine (`fadeLedProgram`) only passes channel
intensities in `[-fadeAmount, 254 + fadeAmount]` to the channel sink, and
the Synchronized Fade routine (`alt_fadeLedProgram`) only passes
intensities in `[0, 254 + fadeAmount]`.  The original `[0,255]` bound
fails: the ramp adds the step before checking the boundary, so the first
value at or above 255 — which can be as large as `254 + fadeAmount` — is
emitted as-is, and in `fadeLedProgram` a signal drop during a descending
ramp followed by a fresh channel ramp emits `-fadeAmount` once. -/
theorem fade_programs_output_bounds (f0 : Int) (hlo : 1 ≤ f0) (_hhi : f0 ≤ 255) :
    (∀ polls : List Bool, ∀ w ∈ fadeLedProgram f0 polls,
        -f0 ≤ w.value ∧ w.value ≤ 254 + f0)
  ∧ (∀ polls : List Bool, ∀ w ∈ alt_fadeLedProgram f0 polls,
        0 ≤ w.value ∧ w.value ≤ 254 + f0) := by
  constructor
  · intro polls w hw
    exact fadeLoopF_bounds f0 hlo (polls.length + 1) f0 polls (Or.inl rfl) w hw
  · intro polls w hw
    exact altFadeLoop_bounds f0 hlo polls 0 f0 (dvd_zero f0)
      (Or.inl ⟨rfl, le_refl 0, by omega⟩) w hw

theorem fade_programs_output_bounds_witness :
    -(5 : Int) ≤ (setLed rLed 0).value ∧ (setLed rLed 0).value ≤ 254 + 5 :=
  (fade_programs_output_bounds 5 (by decide) (by decide)).1 []
    (setLed rLed 0) (by decide)

end LEDKontroller

namespace LEDKontroller

lemma schedEffects_seven (n : Nat) : schedEffects n 7 = schedEffects n 0 := by
  cases n <;> rfl

lemma schedEffects_cycle (n : Nat) :
    schedEffects (n + 7) 0 = effectOrder ++ schedEffects n 0 := by
  rw [← schedEffects_seven n]
  rfl

lemma schedEffects_zero_formula : ∀ n : Nat,
    schedEffects n 0 =
      (List.range n).map (fun i => effectOrder.getD (i % 7) Effect.staticColor) := by
  intro n
  induction n using Nat.strong_induction_on with
  | _ n ih =>
    by_cases hn : n < 7
    · interval_cases n <;> decide
    · obtain ⟨m, rfl⟩ : ∃ m, n = m + 7 := ⟨n - 7, by omega⟩
      have hmap : (List.range m).map
            ((fun i => effectOrder.getD (i % 7) Effect.staticColor) ∘ fun x => 7 + x) =
          (List.range m).map (fun i => effectOrder.getD (i % 7) Effect.staticColor) := by
        refine List.map_congr_left fun i _ => ?_
        simp only [Function.comp]
        have h7 : (7 + i) % 7 = i % 7 := by omega
        rw [h7]
      rw [schedEffects_cycle m, ih m (by omega),
        show m + 7 = 7 + m from Nat.add_comm m 7, List.range_add,
        List.map_append, List.map_map, hmap]
      congr 1

/-- C4: starting from counter 0, the scheduler dispatches the effects in
exactly the fixed 7-entry order Static Color, Sequential Fade,
Synchronized Fade, Sequential Flash, Blink, Random Color Jump, Random
Color Walk, cyclically (`i`-th signal-on event runs entry `i mod 7`); for
each in-range counter value the dispatched effect is the corresponding
list entry and the counter increments by one; and at counter 7 (past the
list) the same signal-on event resets the counter and dispatches Static
Color, so the wrap consumes no extra signal-on event. -/
theorem loop_rotation (n : Nat) :
    schedEffects n 0 =
      (List.range n).map (fun i => effectOrder.getD (i % 7) Effect.staticColor)
  ∧ (∀ p : Int, 0 ≤ p → p < 7 →
      onSignalOn p = (effectOrder.getD p.toNat Effect.staticColor, p + 1))
  ∧ onSignalOn 7 = (Effect.staticColor, 1) := by
  refine ⟨schedEffects_zero_formula n, ?_, by decide⟩
  intro p h0 h7
  interval_cases p <;> decide

theorem loop_rotation_witness :
    schedEffects 8 0 =
      (List.range 8).map (fun i => effectOrder.getD (i % 7) Effect.staticColor)
  ∧ onSignalOn 3 = (effectOrder.getD (3 : Int).toNat Effect.staticColor, 3 + 1) :=
  ⟨(loop_rotation 8).1, (loop_rotation 8).2.1 3 (by decide) (by decide)⟩

end LEDKontroller
